import Mathlib

/-!
Shallow embedding of the resource-identity resolution engine of
`pkg/crossplane/crossplane.go` (package `crossplane` of the styx repository).

Modelling conventions:
* `unstructured.Unstructured` documents are modelled by the `Unstructured`
  structure, carrying exactly the parts the engine reads: `GetKind()`,
  `GetName()`, `GetAPIVersion()`, `GetLabels()` and the dynamic `Object` tree
  (restricted to the shapes the engine inspects: string leaves and string-keyed
  tables; every other dynamic value is `SpecValue.other`, which the source's
  type assertions skip).
* Go `map[string]X` values are modelled as association lists with a map lookup
  (`lookupL`); map-enumeration order is the list order.  Go maps have unique
  keys, which theorems assume through explicit `Nodup` hypotheses where needed.
* `float64` scores are modelled as rationals; `math.Pow(s, 2)` is `s ^ 2`.
* Go string operations are modelled over character lists
  (`strings.Contains` / `strings.ToLower`, ASCII case folding).
* The dynamic client is modelled by the data it yields: `items` is the
  concatenated listing of all resource types in catalog order (listing errors
  skip a type, so an arbitrary item list covers every reachable behaviour),
  and `NetworkEnv` carries the address map `resourceIPMap` together with the
  `Get`-by-identifier accessor used by the network phase.  Mock mode returns
  empty results before any of the modelled logic runs, so the model covers the
  non-mock path.
-/

namespace Styx

/-- `strings.HasPrefix` on character lists: does `sub` lead `l`? -/
def leadChars : List Char → List Char → Bool
  | [], _ => true
  | _ :: _, [] => false
  | a :: as, b :: bs => a == b && leadChars as bs

/-- Substring containment on character lists (contiguous), mirroring
`strings.Contains s substr`: true when `sub` occurs in `l`, and true for an
empty `sub`. -/
def containsSub (sub : List Char) : List Char → Bool
  | [] => sub.isEmpty
  | c :: rest => leadChars sub (c :: rest) || containsSub sub rest

/-- `strings.Contains(s, substr)`. -/
def goContains (s substr : String) : Bool :=
  containsSub substr.toList s.toList

/-- `strings.ToLower` (ASCII case folding). -/
def goToLower (s : String) : String :=
  String.mk (s.toList.map Char.toLower)

/-- Go map index `m[k]` over an association-list model of `map[string]β`. -/
def lookupL {β : Type} : List (String × β) → String → Option β
  | [], _ => none
  | (k, v) :: rest, key => if k = key then some v else lookupL rest key

/-- Go map assignment `m[k] = v` over the association-list model. -/
def setL : List (String × String) → String → String → List (String × String)
  | [], k, v => [(k, v)]
  | (k', v') :: rest, k, v =>
    if k' = k then (k, v) :: rest else (k', v') :: setL rest k v

/-- Keys of an association list are pairwise distinct (Go map invariant). -/
abbrev NodupKeys {β : Type} (l : List (String × β)) : Prop :=
  (l.map Prod.fst).Nodup

/-- A dynamic (`interface\x7b\x7d`) value as inspected by the engine: string
leaves, string-keyed tables, anything else opaque. -/
inductive SpecValue : Type where
  | str (s : String)
  | table (entries : List (String × SpecValue))
  | other

/-- `schema.GroupVersionKind`. -/
structure GroupVersionKind where
  group : String
  version : String
  kind : String
deriving DecidableEq

/-- `ResourceIdentifier` (crossplane.go:23). -/
structure ResourceIdentifier where
  Kind : String
  Name : String
  GVK : GroupVersionKind
deriving DecidableEq

/-- The parts of `unstructured.Unstructured` the engine reads. -/
structure Unstructured where
  kind : String
  name : String
  apiVersion : String
  labels : List (String × String)
  object : List (String × SpecValue)

/-- `ResourceMatch` (crossplane.go:30). -/
structure ResourceMatch where
  Resource : Unstructured
  ConfidenceScore : ℚ
  MatchReasons : List String

/-- `fmt.Sprintf("%s/%s", item.GetKind(), item.GetName())`. -/
def resourceKey (r : Unstructured) : String :=
  r.kind ++ "/" ++ r.name

/-- The same key built from a `ResourceIdentifier` (crossplane.go:725). -/
def identifierKey (rid : ResourceIdentifier) : String :=
  rid.Kind ++ "/" ++ rid.Name

/-- `resource.Object["spec"].(map[string]interface\x7b\x7d)` followed by
`spec["forProvider"].(map[string]interface\x7b\x7d)` (crossplane.go:282-284). -/
def specForProvider (r : Unstructured) : Option (List (String × SpecValue)) :=
  match lookupL r.object "spec" with
  | some (SpecValue.table spec) =>
    match lookupL spec "forProvider" with
    | some (SpecValue.table forProvider) => some forProvider
    | _ => none
  | _ => none

/-- `labels[k].(string)`: map lookup followed by a string type assertion. -/
def strLookup (m : List (String × SpecValue)) (key : String) : Option String :=
  match lookupL m key with
  | some (SpecValue.str s) => some s
  | _ => none

/-- The string value of a well-known key inside `spec.forProvider.labels`,
when that nested map exists (the lookup path of crossplane.go:286-298). -/
def forProviderLabelValue (r : Unstructured) (key : String) : Option String :=
  match specForProvider r with
  | some forProvider =>
    match lookupL forProvider "labels" with
    | some (SpecValue.table m) => strLookup m key
    | _ => none
  | none => none

/-- Reason string of crossplane.go:247. -/
def nameReason (ns : String) : String :=
  "Resource name contains namespace: " ++ ns

/-- Reason string of crossplane.go:275. -/
def labelReason (key : String) : String :=
  "Resource has label '" ++ key ++ "' with value containing namespace"

/-- Reason string of crossplane.go:304. -/
def fpReason (key : String) : String :=
  "Resource spec.forProvider." ++ key ++ " contains namespace"

/-- Identity signals fired by the top-level label map
(crossplane.go:252-279), as (reason, score) pairs in emission order. -/
def labelSignals (labels : List (String × String)) (ns : String) :
    List (String × ℚ) :=
  (if lookupL labels "kubernetes-namespace" = some ns then
    [("Resource has 'kubernetes-namespace' label matching the namespace", 9/10)]
  else []) ++
  (if lookupL labels "namespace" = some ns then
    [("Resource has 'namespace' label matching the namespace", 9/10)]
  else []) ++
  (if lookupL labels "environment" = some ns then
    [("Resource has 'environment' label matching the namespace", 7/10)]
  else []) ++
  labels.filterMap (fun kv =>
    if kv.1 ≠ "kubernetes-namespace" ∧ kv.1 ≠ "namespace" ∧
        kv.1 ≠ "environment" ∧
        goContains (goToLower kv.2) (goToLower ns) = true then
      some (labelReason kv.1, (6/10 : ℚ))
    else none)

/-- Identity signals fired by the `spec.forProvider.labels` map
(crossplane.go:286-299). -/
def forProviderLabelsBlock (m : List (String × SpecValue)) (ns : String) :
    List (String × ℚ) :=
  (if strLookup m "kubernetes-namespace" = some ns then
    [("Resource spec has 'kubernetes-namespace' label in forProvider.labels", 9/10)]
  else []) ++
  (if strLookup m "namespace" = some ns then
    [("Resource spec has 'namespace' label in forProvider.labels", 9/10)]
  else []) ++
  (if strLookup m "environment" = some ns then
    [("Resource spec has 'environment' label in forProvider.labels", 7/10)]
  else [])

/-- Identity signals fired by the `spec.forProvider` section
(crossplane.go:282-309): the nested labels block, then the scan over
string-valued `forProvider` fields. -/
def specSignals (fp : Option (List (String × SpecValue))) (ns : String) :
    List (String × ℚ) :=
  match fp with
  | none => []
  | some forProvider =>
    (match lookupL forProvider "labels" with
     | some (SpecValue.table m) => forProviderLabelsBlock m ns
     | _ => []) ++
    forProvider.filterMap (fun kv =>
      match kv.2 with
      | SpecValue.str s =>
        if goContains (goToLower s) (goToLower ns) = true then
          some (fpReason kv.1, (5/10 : ℚ))
        else none
      | _ => none)

/-- All identity signals of `evaluateResourceMatchForNamespace`
(crossplane.go:241-309): the in-lockstep `matchReasons`/`scores` appends,
paired up, in source order. -/
def signals (r : Unstructured) (ns : String) : List (String × ℚ) :=
  (if goContains (goToLower r.name) (goToLower ns) = true then
    [(nameReason ns, 8/10)]
  else []) ++
  labelSignals r.labels ns ++
  specSignals (specForProvider r) ns

/-- The aggregation step of `evaluateResourceMatchForNamespace`
(crossplane.go:316-335): weights are `math.Pow(score, 2)`, the total is
`weightedTotal / totalWeight` when `totalWeight > 0` and otherwise the
defensive `weightedTotal / len(scores)` fallback. -/
def combineScores (scores : List ℚ) : ℚ :=
  let weightedTotal := (scores.map (fun s => s * s ^ 2)).sum
  let totalWeight := (scores.map (fun s => s ^ 2)).sum
  if 0 < totalWeight then weightedTotal / totalWeight
  else weightedTotal / (scores.length : ℚ)

/-- `evaluateResourceMatchForNamespace` (crossplane.go:241-336): no fired
signal returns `(nil, 0)`; otherwise the reasons and the combined score. -/
def evaluateResourceMatchForNamespace (r : Unstructured) (ns : String) :
    List String × ℚ :=
  let sigs := signals r ns
  if sigs = [] then ([], 0)
  else (sigs.map Prod.fst, combineScores (sigs.map Prod.snd))

/-- One step of the inner loop of `sortMatchesByConfidence`
(crossplane.go:231-237) with the element at position `i` threaded through:
each later element strictly greater than the held one is swapped into the held
position, the displaced element staying at the later position. -/
def selectMax : ResourceMatch → List ResourceMatch → ResourceMatch × List ResourceMatch
  | x, [] => (x, [])
  | x, y :: ys =>
    if x.ConfidenceScore < y.ConfidenceScore then
      ((selectMax y ys).1, x :: (selectMax y ys).2)
    else
      ((selectMax x ys).1, y :: (selectMax x ys).2)

/-- The outer loop of `sortMatchesByConfidence`: one `selectMax` pass per
index `i`; the fuel is the number of outer iterations, `len(matches)`. -/
def sortLoop : Nat → List ResourceMatch → List ResourceMatch
  | 0, l => l
  | _ + 1, [] => []
  | n + 1, x :: xs =>
    (selectMax x xs).1 :: sortLoop n (selectMax x xs).2

/-- `sortMatchesByConfidence` (crossplane.go:229-238). -/
def sortMatchesByConfidence (l : List ResourceMatch) : List ResourceMatch :=
  sortLoop l.length l

/-- The metadata pass of `FindCrossplaneResourcesForNamespaceWithConfidence`
(crossplane.go:186-219): walk the listed items, skip already-found `kind/name`
keys, score the rest, and keep matches with confidence above 0.3, marking
their key as found. -/
def metadataPass (ns : String) :
    List Unstructured → List ResourceMatch → List String →
      List ResourceMatch × List String
  | [], acc, found => (acc, found)
  | r :: rest, acc, found =>
    if resourceKey r ∈ found then
      metadataPass ns rest acc found
    else
      if 3/10 < (evaluateResourceMatchForNamespace r ns).2 then
        metadataPass ns rest
          (acc ++ [⟨r, (evaluateResourceMatchForNamespace r ns).2,
            (evaluateResourceMatchForNamespace r ns).1⟩])
          (resourceKey r :: found)
      else
        metadataPass ns rest acc found

/-- `FindCrossplaneResourcesForNamespaceWithConfidence` (crossplane.go:166-226)
on the concatenated listing `items` (unreachable resource types are skipped by
the source, so they simply contribute no items). -/
def FindCrossplaneResourcesForNamespaceWithConfidence
    (items : List Unstructured) (ns : String) : List ResourceMatch :=
  sortMatchesByConfidence (metadataPass ns items [] []).1

/-- The backend state the network phase reads: `resourceIPMap` and the
dynamic-client `Get` by identifier (a failed `Get` is `none` and is skipped). -/
structure NetworkEnv where
  ipMap : List (String × List ResourceIdentifier)
  getResource : ResourceIdentifier → Option Unstructured

/-- Reason string of crossplane.go:757. -/
def reasonForPodIP (ip : String) : String :=
  "Network connection detected from pod IP " ++ ip

/-- The per-address inner loop of the network phase (crossplane.go:724-762):
for each connected identifier not already found, fetch the resource and add a
0.9-confidence match with a single reason citing the pod IP. -/
def networkInner (env : NetworkEnv) (ip : String) :
    List ResourceIdentifier → List ResourceMatch → List String →
      List ResourceMatch × List String
  | [], acc, found => (acc, found)
  | rid :: rest, acc, found =>
    if identifierKey rid ∈ found then
      networkInner env ip rest acc found
    else
      match env.getResource rid with
      | none => networkInner env ip rest acc found
      | some res =>
        networkInner env ip rest
          (acc ++ [⟨res, 9/10, [reasonForPodIP ip]⟩])
          (identifierKey rid :: found)

/-- The per-pod-IP outer loop of the network phase (crossplane.go:718-763):
IPs missing from `resourceIPMap` are skipped. -/
def networkPass (env : NetworkEnv) :
    List String → List ResourceMatch → List String →
      List ResourceMatch × List String
  | [], acc, found => (acc, found)
  | ip :: rest, acc, found =>
    match lookupL env.ipMap ip with
    | none => networkPass env rest acc found
    | some connected =>
      networkPass env rest (networkInner env ip connected acc found).1
        (networkInner env ip connected acc found).2

/-- `FindCrossplaneResourcesForNamespaceWithNetworking`
(crossplane.go:685-769): metadata matches first; with no pod IPs they are
returned as-is, otherwise the network phase extends them (dedup by `kind/name`
across both phases) and the combined list is re-sorted. -/
def FindCrossplaneResourcesForNamespaceWithNetworking
    (items : List Unstructured) (env : NetworkEnv) (ns : String)
    (podIPs : List String) : List ResourceMatch :=
  let ms := FindCrossplaneResourcesForNamespaceWithConfidence items ns
  if podIPs = [] then ms
  else
    sortMatchesByConfidence
      (networkPass env podIPs ms (ms.map (fun m => resourceKey m.Resource))).1

/-- The label-merge loop of `ApplyLabelsToResource` (crossplane.go:407-415):
each desired pair whose value differs from (or is missing in) the current map
is written into it and flips `labelsChanged`. -/
def applyLoop : List (String × String) → List (String × String) → Bool →
    List (String × String) × Bool
  | cur, [], changed => (cur, changed)
  | cur, (k, v) :: rest, changed =>
    if lookupL cur k = some v then applyLoop cur rest changed
    else applyLoop (setL cur k v) rest true

/-- The merged label map `ApplyLabelsToResource` would persist. -/
def mergedLabels (current desired : List (String × String)) :
    List (String × String) :=
  (applyLoop current desired false).1

/-- `ApplyLabelsToResource` (crossplane.go:379-435), as a function of the
freshly-read current labels (a `nil` label map reads as the empty map) and the
desired labels: `none` means the update write is skipped (crossplane.go:418),
`some m` means exactly one update write persisting `m`. -/
def ApplyLabelsToResource (current desired : List (String × String)) :
    Option (List (String × String)) :=
  if (applyLoop current desired false).2 = true then
    some (mergedLabels current desired)
  else none

/-- The dynamic-client `Get` contract: a fetched document carries the kind and
name it was requested under. -/
def GetWellFormed (env : NetworkEnv) : Prop :=
  ∀ (rid : ResourceIdentifier) (res : Unstructured),
    env.getResource rid = some res → res.kind = rid.Kind ∧ res.name = rid.Name

/-- Two optional `forProvider` maps that are permutations of one another with
unique keys (the shape of one Go map enumerated in two orders), or both
absent. -/
def OptPermFP :
    Option (List (String × SpecValue)) → Option (List (String × SpecValue)) →
      Prop
  | none, none => True
  | some a, some b => a.Perm b ∧ NodupKeys b
  | _, _ => False

/-! ### Concrete instances used to evaluate the engine on closed inputs -/

/-- A resource matched only through a generic label-containment signal. -/
def cexR1 : Unstructured := ⟨"Instance", "x1", "v1", [("team", "prod-team")], []⟩

/-- A second resource matched only through a generic label-containment
signal, listed after `cexR1`. -/
def cexR2 : Unstructured := ⟨"Disk", "x2", "v1", [("owner", "prod-owner")], []⟩

/-- A resource matched through the name-containment signal, listed last. -/
def cexR3 : Unstructured := ⟨"Bucket", "prod-db", "v1", [], []⟩

/-- The match the engine builds for `cexR1` against namespace `prod`. -/
def cexM1 : ResourceMatch := ⟨cexR1, 6/10, [labelReason "team"]⟩

/-- The match the engine builds for `cexR2` against namespace `prod`. -/
def cexM2 : ResourceMatch := ⟨cexR2, 6/10, [labelReason "owner"]⟩

/-- The match the engine builds for `cexR3` against namespace `prod`. -/
def cexM3 : ResourceMatch := ⟨cexR3, 8/10, [nameReason "prod"]⟩

/-- A resource whose only identity signal is the exact top-level
`kubernetes-namespace` label match for namespace `billing`. -/
def cexW7 : Unstructured :=
  ⟨"Instance", "x", "v1", [("kubernetes-namespace", "billing")], []⟩

/-- A resource carrying `workload-name: billing` only inside
`spec.forProvider.labels`. -/
def cexN9 : Unstructured :=
  ⟨"Instance", "x", "v1", [],
    [("spec", SpecValue.table [("forProvider", SpecValue.table
      [("labels", SpecValue.table
        [("workload-name", SpecValue.str "billing")])])])]⟩

/-- A group/version/kind for the network-phase instances. -/
def cexGVK : GroupVersionKind := ⟨"compute.gcp.upbound.io", "v1beta1", "Instance"⟩

/-- The identifier the network index stores for `cexWeb`. -/
def cexRid : ResourceIdentifier := ⟨"Instance", "web-1", cexGVK⟩

/-- The resource the network phase fetches for `cexRid`. -/
def cexWeb : Unstructured :=
  ⟨"Instance", "web-1", "compute.gcp.upbound.io/v1beta1", [], []⟩

/-- A network environment mapping pod IP `10.0.3.4` to `cexRid`. -/
def cexEnv : NetworkEnv :=
  ⟨[("10.0.3.4", [cexRid])],
    fun rid => if rid = cexRid then some cexWeb else none⟩

/-- The network-sourced match built from `cexWeb` through IP `10.0.3.4`. -/
def cexM6 : ResourceMatch := ⟨cexWeb, 9/10, [reasonForPodIP "10.0.3.4"]⟩

/-- Labels in one enumeration order. -/
def cexP : Unstructured :=
  ⟨"Instance", "x", "v1", [("a", "team-prod"), ("b", "zz")], []⟩

/-- The same resource with the label map enumerated in the other order. -/
def cexP2 : Unstructured :=
  ⟨"Instance", "x", "v1", [("b", "zz"), ("a", "team-prod")], []⟩

/-! ### General lemmas about the embedded operations -/

theorem leadChars_self : ∀ l : List Char, leadChars l l = true := by
  intro l
  induction l with
  | nil => rfl
  | cons c r ih => simp [leadChars, ih]

theorem containsSub_self (l : List Char) : containsSub l l = true := by
  cases l with
  | nil => rfl
  | cons c r => simp [containsSub, leadChars_self]

theorem goContains_self (s : String) : goContains s s = true :=
  containsSub_self _

theorem lookupL_eq_none_iff {β : Type} (l : List (String × β)) (k : String) :
    lookupL l k = none ↔ k ∉ l.map Prod.fst := by
  induction l with
  | nil => simp [lookupL]
  | cons p rest ih =>
    obtain ⟨k', v⟩ := p
    by_cases h : k' = k
    · subst h
      simp [lookupL]
    · simp [lookupL, h, ih, Ne.symm h]

theorem mem_of_lookupL_eq_some {β : Type} :
    ∀ {l : List (String × β)} {k : String} {v : β},
      lookupL l k = some v → (k, v) ∈ l := by
  intro l
  induction l with
  | nil => intro k v h; simp [lookupL] at h
  | cons p rest ih =>
    intro k v h
    obtain ⟨k', v'⟩ := p
    by_cases hk : k' = k
    · subst hk
      simp [lookupL] at h
      subst h
      exact List.mem_cons_self _ _
    · simp [lookupL, hk] at h
      exact List.mem_cons_of_mem _ (ih h)

theorem lookupL_eq_some_of_mem {β : Type} :
    ∀ {l : List (String × β)}, NodupKeys l →
      ∀ {k : String} {v : β}, (k, v) ∈ l → lookupL l k = some v := by
  intro l
  induction l with
  | nil => intro _ k v h; simp at h
  | cons p rest ih =>
    intro hn k v h
    obtain ⟨k', v'⟩ := p
    have hn' : NodupKeys rest := (List.nodup_cons.mp hn).2
    have hhead : k' ∉ rest.map Prod.fst := (List.nodup_cons.mp hn).1
    rcases List.mem_cons.mp h with heq | hmem
    · obtain ⟨h1, h2⟩ := Prod.mk.injEq .. ▸ heq
      subst h1; subst h2
      simp [lookupL]
    · have hk : k' ≠ k := by
        intro e
        subst e
        exact hhead (List.mem_map.mpr ⟨(k', v), hmem, rfl⟩)
      simp [lookupL, hk]
      exact ih hn' hmem

theorem lookupL_perm {β : Type} {l₁ l₂ : List (String × β)} (h : l₁.Perm l₂)
    (hn : NodupKeys l₂) (k : String) : lookupL l₁ k = lookupL l₂ k := by
  have hn₁ : NodupKeys l₁ := ((h.map Prod.fst).nodup_iff).mpr hn
  cases h₂ : lookupL l₂ k with
  | some v =>
    exact lookupL_eq_some_of_mem hn₁ (h.mem_iff.mpr (mem_of_lookupL_eq_some h₂))
  | none =>
    rw [lookupL_eq_none_iff] at h₂ ⊢
    exact fun hc => h₂ ((h.map Prod.fst).mem_iff.mp hc)

theorem sum_sq_nonneg (l : List ℚ) : 0 ≤ (l.map fun s => s ^ 2).sum := by
  apply List.sum_nonneg
  intro x hx
  obtain ⟨s, _, rfl⟩ := List.mem_map.mp hx
  positivity

theorem eq_zero_of_sum_sq_eq_zero {l : List ℚ}
    (h : (l.map fun s => s ^ 2).sum = 0) : ∀ s ∈ l, s = 0 := by
  induction l with
  | nil => simp
  | cons a t ih =>
    simp only [List.map_cons, List.sum_cons] at h
    have h1 : 0 ≤ a ^ 2 := sq_nonneg a
    have h2 : 0 ≤ (t.map fun s => s ^ 2).sum := sum_sq_nonneg t
    have ha : a ^ 2 = 0 := by linarith
    have ht : (t.map fun s => s ^ 2).sum = 0 := by linarith
    intro s hs
    rcases List.mem_cons.mp hs with rfl | hs'
    · exact pow_eq_zero_iff (two_ne_zero) |>.mp ha
    · exact ih ht s hs'

theorem combineScores_eq (l : List ℚ) :
    combineScores l =
      (l.map fun s => s * s ^ 2).sum / (l.map fun s => s ^ 2).sum := by
  unfold combineScores
  by_cases h : 0 < (l.map fun s => s ^ 2).sum
  · simp [h]
  · have hz : (l.map fun s => s ^ 2).sum = 0 :=
      le_antisymm (not_lt.mp h) (sum_sq_nonneg l)
    have hall := eq_zero_of_sum_sq_eq_zero hz
    have hc : (l.map fun s => s * s ^ 2).sum = 0 := by
      apply List.sum_eq_zero
      intro x hx
      obtain ⟨s, hs, rfl⟩ := List.mem_map.mp hx
      rw [hall s hs]
      ring
    simp [h, hz, hc]

theorem combineScores_perm {l₁ l₂ : List ℚ} (h : l₁.Perm l₂) :
    combineScores l₁ = combineScores l₂ := by
  unfold combineScores
  rw [(h.map _).sum_eq, (h.map _).sum_eq, h.length_eq]

theorem combineScores_single {w : ℚ} (hw : 0 < w) : combineScores [w] = w := by
  have h2 : (0 : ℚ) < w ^ 2 := pow_pos hw 2
  simp only [combineScores, List.map_cons, List.map_nil, List.sum_cons,
    List.sum_nil, add_zero, List.length_cons, List.length_nil]
  rw [if_pos h2, mul_div_assoc, div_self (ne_of_gt h2), mul_one]

theorem selectMax_length : ∀ (l : List ResourceMatch) (x : ResourceMatch),
    (selectMax x l).2.length = l.length := by
  intro l
  induction l with
  | nil => intro x; rfl
  | cons y ys ih =>
    intro x
    by_cases h : x.ConfidenceScore < y.ConfidenceScore
    · simp [selectMax, h, ih]
    · simp [selectMax, h, ih]

theorem selectMax_perm : ∀ (l : List ResourceMatch) (x : ResourceMatch),
    ((selectMax x l).1 :: (selectMax x l).2).Perm (x :: l) := by
  intro l
  induction l with
  | nil => intro x; exact List.Perm.refl _
  | cons y ys ih =>
    intro x
    by_cases h : x.ConfidenceScore < y.ConfidenceScore
    · simp only [selectMax, if_pos h]
      exact (List.Perm.swap x _ _).trans ((ih y).cons x)
    · simp only [selectMax, if_neg h]
      exact (List.Perm.swap y _ _).trans (((ih x).cons y).trans
        (List.Perm.swap x y ys))

theorem selectMax_fst_ge_seed : ∀ (l : List ResourceMatch) (x : ResourceMatch),
    x.ConfidenceScore ≤ (selectMax x l).1.ConfidenceScore := by
  intro l
  induction l with
  | nil => intro x; exact le_refl _
  | cons y ys ih =>
    intro x
    by_cases h : x.ConfidenceScore < y.ConfidenceScore
    · simp only [selectMax, if_pos h]
      exact (le_of_lt h).trans (ih y)
    · simp only [selectMax, if_neg h]
      exact ih x

theorem selectMax_fst_ge_rest : ∀ (l : List ResourceMatch) (x z : ResourceMatch),
    z ∈ (selectMax x l).2 → z.ConfidenceScore ≤ (selectMax x l).1.ConfidenceScore := by
  intro l
  induction l with
  | nil => intro x z hz; simp [selectMax] at hz
  | cons y ys ih =>
    intro x z hz
    by_cases h : x.ConfidenceScore < y.ConfidenceScore
    · simp only [selectMax, if_pos h] at hz ⊢
      rcases List.mem_cons.mp hz with rfl | hz'
      · exact (le_of_lt h).trans (selectMax_fst_ge_seed ys y)
      · exact ih y z hz'
    · simp only [selectMax, if_neg h] at hz ⊢
      rcases List.mem_cons.mp hz with rfl | hz'
      · exact (not_lt.mp h).trans (selectMax_fst_ge_seed ys x)
      · exact ih x z hz'

theorem sortLoop_perm : ∀ (n : Nat) (l : List ResourceMatch),
    l.length ≤ n → (sortLoop n l).Perm l := by
  intro n
  induction n with
  | zero => intro l _; exact List.Perm.refl _
  | succ n ih =>
    intro l h
    cases l with
    | nil => simp [sortLoop]
    | cons x xs =>
      simp only [sortLoop]
      have hlen : (selectMax x xs).2.length ≤ n := by
        rw [selectMax_length]
        exact Nat.succ_le_succ_iff.mp (by simpa using h)
      exact ((ih _ hlen).cons _).trans (selectMax_perm xs x)

theorem sortLoop_pairwise : ∀ (n : Nat) (l : List ResourceMatch),
    l.length ≤ n →
      List.Pairwise (fun a b => b.ConfidenceScore ≤ a.ConfidenceScore)
        (sortLoop n l) := by
  intro n
  induction n with
  | zero =>
    intro l h
    have : l = [] := List.eq_nil_of_length_eq_zero (Nat.le_zero.mp h)
    subst this
    simp [sortLoop]
  | succ n ih =>
    intro l h
    cases l with
    | nil => simp [sortLoop]
    | cons x xs =>
      simp only [sortLoop]
      have hlen : (selectMax x xs).2.length ≤ n := by
        rw [selectMax_length]
        exact Nat.succ_le_succ_iff.mp (by simpa using h)
      refine List.Pairwise.cons ?_ (ih _ hlen)
      intro b hb
      exact selectMax_fst_ge_rest xs x b ((sortLoop_perm n _ hlen).mem_iff.mp hb)

theorem sortMatches_perm (l : List ResourceMatch) :
    (sortMatchesByConfidence l).Perm l :=
  sortLoop_perm l.length l (le_refl _)

theorem sortMatches_pairwise (l : List ResourceMatch) :
    List.Pairwise (fun a b => b.ConfidenceScore ≤ a.ConfidenceScore)
      (sortMatchesByConfidence l) :=
  sortLoop_pairwise l.length l (le_refl _)

theorem metadataPass_mem_acc (ns : String) :
    ∀ (l : List Unstructured) (acc : List ResourceMatch) (found : List String)
      (m : ResourceMatch), m ∈ acc → m ∈ (metadataPass ns l acc found).1 := by
  intro l
  induction l with
  | nil => intro acc found m hm; simpa [metadataPass] using hm
  | cons r rest ih =>
    intro acc found m hm
    simp only [metadataPass]
    by_cases hf : resourceKey r ∈ found
    · rw [if_pos hf]; exact ih _ _ m hm
    · rw [if_neg hf]
      by_cases hc : 3/10 < (evaluateResourceMatchForNamespace r ns).2
      · rw [if_pos hc]; exact ih _ _ m (List.mem_append_left _ hm)
      · rw [if_neg hc]; exact ih _ _ m hm

theorem metadataPass_found_sub (ns : String) :
    ∀ (l : List Unstructured) (acc : List ResourceMatch) (found : List String)
      (k : String), k ∈ found → k ∈ (metadataPass ns l acc found).2 := by
  intro l
  induction l with
  | nil => intro acc found k hk; simpa [metadataPass] using hk
  | cons r rest ih =>
    intro acc found k hk
    simp only [metadataPass]
    by_cases hf : resourceKey r ∈ found
    · rw [if_pos hf]; exact ih _ _ k hk
    · rw [if_neg hf]
      by_cases hc : 3/10 < (evaluateResourceMatchForNamespace r ns).2
      · rw [if_pos hc]; exact ih _ _ k (List.mem_cons_of_mem _ hk)
      · rw [if_neg hc]; exact ih _ _ k hk

theorem metadataPass_mem_char (ns : String) :
    ∀ (l : List Unstructured) (acc : List ResourceMatch) (found : List String)
      (m : ResourceMatch), m ∈ (metadataPass ns l acc found).1 →
        m ∈ acc ∨ (m.Resource ∈ l ∧
          m.MatchReasons = (evaluateResourceMatchForNamespace m.Resource ns).1 ∧
          m.ConfidenceScore = (evaluateResourceMatchForNamespace m.Resource ns).2 ∧
          3/10 < m.ConfidenceScore) := by
  intro l
  induction l with
  | nil => intro acc found m hm; left; simpa [metadataPass] using hm
  | cons r rest ih =>
    intro acc found m hm
    simp only [metadataPass] at hm
    by_cases hf : resourceKey r ∈ found
    · rw [if_pos hf] at hm
      rcases ih _ _ m hm with h | ⟨h1, h2⟩
      · exact Or.inl h
      · exact Or.inr ⟨List.mem_cons_of_mem _ h1, h2⟩
    · rw [if_neg hf] at hm
      by_cases hc : 3/10 < (evaluateResourceMatchForNamespace r ns).2
      · rw [if_pos hc] at hm
        rcases ih _ _ m hm with h | ⟨h1, h2⟩
        · rcases List.mem_append.mp h with h' | h'
          · exact Or.inl h'
          · have hm' := List.mem_singleton.mp h'
            subst hm'
            exact Or.inr ⟨List.mem_cons_self _ _, rfl, rfl, hc⟩
        · exact Or.inr ⟨List.mem_cons_of_mem _ h1, h2⟩
      · rw [if_neg hc] at hm
        rcases ih _ _ m hm with h | ⟨h1, h2⟩
        · exact Or.inl h
        · exact Or.inr ⟨List.mem_cons_of_mem _ h1, h2⟩

theorem metadataPass_covered (ns : String) :
    ∀ (l : List Unstructured) (acc : List ResourceMatch) (found : List String),
      (∀ k ∈ found, ∃ m ∈ acc, resourceKey m.Resource = k) →
      ∀ k ∈ (metadataPass ns l acc found).2,
        ∃ m ∈ (metadataPass ns l acc found).1, resourceKey m.Resource = k := by
  intro l
  induction l with
  | nil =>
    intro acc found hcov k hk
    simp only [metadataPass] at hk ⊢
    exact hcov k hk
  | cons r rest ih =>
    intro acc found hcov k hk
    simp only [metadataPass] at hk ⊢
    by_cases hf : resourceKey r ∈ found
    · rw [if_pos hf] at hk ⊢; exact ih _ _ hcov k hk
    · rw [if_neg hf] at hk ⊢
      by_cases hc : 3/10 < (evaluateResourceMatchForNamespace r ns).2
      · rw [if_pos hc] at hk ⊢
        refine ih _ _ ?_ k hk
        intro k' hk'
        rcases List.mem_cons.mp hk' with rfl | hk''
        · exact ⟨⟨r, _, _⟩, List.mem_append_right _ (List.mem_singleton_self _), rfl⟩
        · obtain ⟨m, hm, hmk⟩ := hcov k' hk''
          exact ⟨m, List.mem_append_left _ hm, hmk⟩
      · rw [if_neg hc] at hk ⊢; exact ih _ _ hcov k hk

theorem metadataPass_high_key (ns : String) :
    ∀ (l : List Unstructured) (acc : List ResourceMatch) (found : List String)
      (r : Unstructured), r ∈ l →
        3/10 < (evaluateResourceMatchForNamespace r ns).2 →
        resourceKey r ∈ (metadataPass ns l acc found).2 := by
  intro l
  induction l with
  | nil => intro acc found r hr; simp at hr
  | cons r0 rest ih =>
    intro acc found r hr hc
    simp only [metadataPass]
    rcases List.mem_cons.mp hr with rfl | hr'
    · by_cases hf : resourceKey r ∈ found
      · rw [if_pos hf]
        exact metadataPass_found_sub ns rest _ _ _ hf
      · rw [if_neg hf, if_pos hc]
        exact metadataPass_found_sub ns rest _ _ _ (List.mem_cons_self _ _)
    · by_cases hf : resourceKey r0 ∈ found
      · rw [if_pos hf]; exact ih _ _ r hr' hc
      · rw [if_neg hf]
        by_cases hc0 : 3/10 < (evaluateResourceMatchForNamespace r0 ns).2
        · rw [if_pos hc0]; exact ih _ _ r hr' hc
        · rw [if_neg hc0]; exact ih _ _ r hr' hc

theorem metadataPass_nodup (ns : String) :
    ∀ (l : List Unstructured) (acc : List ResourceMatch) (found : List String),
      ((acc.map fun m => resourceKey m.Resource).Nodup) →
      (∀ m ∈ acc, resourceKey m.Resource ∈ found) →
      (((metadataPass ns l acc found).1.map fun m => resourceKey m.Resource).Nodup ∧
        ∀ m ∈ (metadataPass ns l acc found).1,
          resourceKey m.Resource ∈ (metadataPass ns l acc found).2) := by
  intro l
  induction l with
  | nil =>
    intro acc found h1 h2
    simpa [metadataPass] using ⟨h1, h2⟩
  | cons r rest ih =>
    intro acc found h1 h2
    simp only [metadataPass]
    by_cases hf : resourceKey r ∈ found
    · rw [if_pos hf]; exact ih _ _ h1 h2
    · rw [if_neg hf]
      by_cases hc : 3/10 < (evaluateResourceMatchForNamespace r ns).2
      · rw [if_pos hc]
        refine ih _ _ ?_ ?_
        · rw [List.map_append]
          refine List.Nodup.append h1 (by simp) ?_
          intro k hk1 hk2
          simp only [List.map_cons, List.map_nil, List.mem_singleton] at hk2
          subst hk2
          obtain ⟨m, hm, hmk⟩ := List.mem_map.mp hk1
          exact hf (hmk ▸ h2 m hm)
        · intro m hm
          rcases List.mem_append.mp hm with h' | h'
          · exact List.mem_cons_of_mem _ (h2 m h')
          · have hm' := List.mem_singleton.mp h'
            subst hm'
            exact List.mem_cons_self _ _
      · rw [if_neg hc]; exact ih _ _ h1 h2

theorem networkInner_mem (env : NetworkEnv) (ip : String) :
    ∀ (rids : List ResourceIdentifier) (acc : List ResourceMatch)
      (found : List String) (m : ResourceMatch),
      m ∈ (networkInner env ip rids acc found).1 →
        m ∈ acc ∨ (m.ConfidenceScore = 9/10 ∧
          m.MatchReasons = [reasonForPodIP ip]) := by
  intro rids
  induction rids with
  | nil => intro acc found m hm; left; simpa [networkInner] using hm
  | cons rid rest ih =>
    intro acc found m hm
    simp only [networkInner] at hm
    by_cases hf : identifierKey rid ∈ found
    · rw [if_pos hf] at hm; exact ih _ _ m hm
    · rw [if_neg hf] at hm
      cases hres : env.getResource rid with
      | none => rw [hres] at hm; exact ih _ _ m hm
      | some res =>
        rw [hres] at hm
        rcases ih _ _ m hm with h | h
        · rcases List.mem_append.mp h with h' | h'
          · exact Or.inl h'
          · have hm' := List.mem_singleton.mp h'
            subst hm'
            exact Or.inr ⟨rfl, rfl⟩
        · exact Or.inr h

theorem networkPass_mem (env : NetworkEnv) :
    ∀ (ips : List String) (acc : List ResourceMatch) (found : List String)
      (m : ResourceMatch), m ∈ (networkPass env ips acc found).1 →
        m ∈ acc ∨ ∃ ip ∈ ips, m.ConfidenceScore = 9/10 ∧
          m.MatchReasons = [reasonForPodIP ip] := by
  intro ips
  induction ips with
  | nil => intro acc found m hm; left; simpa [networkPass] using hm
  | cons ip rest ih =>
    intro acc found m hm
    simp only [networkPass] at hm
    cases hlk : lookupL env.ipMap ip with
    | none =>
      rw [hlk] at hm
      rcases ih _ _ m hm with h | ⟨ip', hip', h⟩
      · exact Or.inl h
      · exact Or.inr ⟨ip', List.mem_cons_of_mem _ hip', h⟩
    | some connected =>
      rw [hlk] at hm
      rcases ih _ _ m hm with h | ⟨ip', hip', h⟩
      · rcases networkInner_mem env ip connected _ _ m h with h' | h'
        · exact Or.inl h'
        · exact Or.inr ⟨ip, List.mem_cons_self _ _, h'⟩
      · exact Or.inr ⟨ip', List.mem_cons_of_mem _ hip', h⟩

theorem networkInner_nodup (env : NetworkEnv) (ip : String)
    (hget : GetWellFormed env) :
    ∀ (rids : List ResourceIdentifier) (acc : List ResourceMatch)
      (found : List String),
      ((acc.map fun m => resourceKey m.Resource).Nodup) →
      (∀ m ∈ acc, resourceKey m.Resource ∈ found) →
      (((networkInner env ip rids acc found).1.map
          fun m => resourceKey m.Resource).Nodup ∧
        ∀ m ∈ (networkInner env ip rids acc found).1,
          resourceKey m.Resource ∈ (networkInner env ip rids acc found).2) := by
  intro rids
  induction rids with
  | nil =>
    intro acc found h1 h2
    simpa [networkInner] using ⟨h1, h2⟩
  | cons rid rest ih =>
    intro acc found h1 h2
    simp only [networkInner]
    by_cases hf : identifierKey rid ∈ found
    · rw [if_pos hf]; exact ih _ _ h1 h2
    · rw [if_neg hf]
      cases hres : env.getResource rid with
      | none => exact ih _ _ h1 h2
      | some res =>
        have hkey : resourceKey res = identifierKey rid := by
          obtain ⟨hk, hn⟩ := hget rid res hres
          simp [resourceKey, identifierKey, hk, hn]
        refine ih _ _ ?_ ?_
        · rw [List.map_append]
          refine List.Nodup.append h1 (by simp) ?_
          intro k hk1 hk2
          simp only [List.map_cons, List.map_nil, List.mem_singleton] at hk2
          subst hk2
          obtain ⟨m, hm, hmk⟩ := List.mem_map.mp hk1
          rw [hkey] at hmk
          exact hf (hmk ▸ h2 m hm)
        · intro m hm
          rcases List.mem_append.mp hm with h' | h'
          · exact List.mem_cons_of_mem _ (h2 m h')
          · have hm' := List.mem_singleton.mp h'
            subst hm'
            simp only [hkey]
            exact List.mem_cons_self _ _

theorem networkPass_nodup (env : NetworkEnv) (hget : GetWellFormed env) :
    ∀ (ips : List String) (acc : List ResourceMatch) (found : List String),
      ((acc.map fun m => resourceKey m.Resource).Nodup) →
      (∀ m ∈ acc, resourceKey m.Resource ∈ found) →
      ((networkPass env ips acc found).1.map
        fun m => resourceKey m.Resource).Nodup := by
  intro ips
  induction ips with
  | nil =>
    intro acc found h1 _
    simpa [networkPass] using h1
  | cons ip rest ih =>
    intro acc found h1 h2
    simp only [networkPass]
    cases hlk : lookupL env.ipMap ip with
    | none => exact ih _ _ h1 h2
    | some connected =>
      obtain ⟨h1', h2'⟩ := networkInner_nodup env ip hget connected acc found h1 h2
      exact ih _ _ h1' h2'

theorem setL_lookup_self : ∀ (m : List (String × String)) (k v : String),
    lookupL (setL m k v) k = some v := by
  intro m
  induction m with
  | nil => intro k v; simp [setL, lookupL]
  | cons p rest ih =>
    intro k v
    obtain ⟨k', v'⟩ := p
    by_cases h : k' = k
    · simp [setL, h, lookupL]
    · simp [setL, h, lookupL, ih]

theorem setL_lookup_other : ∀ (m : List (String × String)) (k v k0 : String),
    k ≠ k0 → lookupL (setL m k v) k0 = lookupL m k0 := by
  intro m
  induction m with
  | nil => intro k v k0 h; simp [setL, lookupL, h]
  | cons p rest ih =>
    intro k v k0 h
    obtain ⟨k', v'⟩ := p
    by_cases hk : k' = k
    · subst hk
      simp [setL, lookupL, h]
    · simp [setL, hk, lookupL, ih _ _ _ h]

theorem applyLoop_changed_true :
    ∀ (des cur : List (String × String)), (applyLoop cur des true).2 = true := by
  intro des
  induction des with
  | nil => intro cur; rfl
  | cons p rest ih =>
    intro cur
    obtain ⟨k, v⟩ := p
    by_cases h : lookupL cur k = some v
    · simp only [applyLoop, if_pos h]; exact ih cur
    · simp only [applyLoop, if_neg h]; exact ih _

theorem applyLoop_lookup :
    ∀ (des cur : List (String × String)) (c : Bool) (k : String),
      NodupKeys des →
      lookupL (applyLoop cur des c).1 k =
        (match lookupL des k with
         | some v => some v
         | none => lookupL cur k) := by
  intro des
  induction des with
  | nil => intro cur c k _; simp [applyLoop, lookupL]
  | cons p rest ih =>
    intro cur c k hd
    obtain ⟨kd, vd⟩ := p
    have hd' : NodupKeys rest := (List.nodup_cons.mp hd).2
    have hknotin : kd ∉ rest.map Prod.fst := (List.nodup_cons.mp hd).1
    by_cases hk : kd = k
    · subst hk
      have hrest : lookupL rest kd = none := (lookupL_eq_none_iff rest kd).mpr hknotin
      by_cases hcur : lookupL cur kd = some vd
      · simp only [applyLoop, if_pos hcur]
        rw [ih cur c kd hd']
        simp [lookupL, hrest, hcur]
      · simp only [applyLoop, if_neg hcur]
        rw [ih _ true kd hd']
        simp [lookupL, hrest, setL_lookup_self]
    · by_cases hcur : lookupL cur kd = some vd
      · simp only [applyLoop, if_pos hcur]
        rw [ih cur c k hd']
        simp [lookupL, hk]
      · simp only [applyLoop, if_neg hcur]
        rw [ih _ true k hd']
        simp only [lookupL, if_neg hk]
        cases lookupL rest k with
        | some v => rfl
        | none => exact setL_lookup_other cur kd vd k hk

theorem applyLoop_changed_iff :
    ∀ (des cur : List (String × String)),
      ((applyLoop cur des false).2 = true ↔
        ∃ p ∈ des, lookupL cur p.1 ≠ some p.2) := by
  intro des
  induction des with
  | nil => intro cur; simp [applyLoop]
  | cons p rest ih =>
    intro cur
    obtain ⟨kd, vd⟩ := p
    by_cases hcur : lookupL cur kd = some vd
    · simp only [applyLoop, if_pos hcur]
      rw [ih cur]
      constructor
      · rintro ⟨q, hq, hne⟩
        exact ⟨q, List.mem_cons_of_mem _ hq, hne⟩
      · rintro ⟨q, hq, hne⟩
        rcases List.mem_cons.mp hq with rfl | hq'
        · exact absurd hcur hne
        · exact ⟨q, hq', hne⟩
    · simp only [applyLoop, if_neg hcur]
      exact iff_of_true (applyLoop_changed_true rest _)
        ⟨(kd, vd), List.mem_cons_self _ _, hcur⟩

/-- Evaluating a resource that fires exactly one positive-weight signal. -/
theorem evaluate_single (r : Unstructured) (ns : String) (msg : String) (w : ℚ)
    (hs : signals r ns = [(msg, w)]) (hw : 0 < w) :
    evaluateResourceMatchForNamespace r ns = ([msg], w) := by
  simp only [evaluateResourceMatchForNamespace, hs]
  rw [if_neg (by simp)]
  simp [combineScores_single hw]

/-! ### The claims -/

/-- C1: with no fired identity signal the scorer returns no reasons and
confidence exactly 0; otherwise it returns one reason per fired signal (the
fired reasons in order) and confidence equal to the weight-squared-weighted
average Σ(w·w²)/Σ(w²) over exactly the fired signal weights. -/
theorem evaluateResourceMatch_formula (r : Unstructured) (ns : String) :
    evaluateResourceMatchForNamespace r ns =
      if signals r ns = [] then ([], 0)
      else ((signals r ns).map Prod.fst,
        ((signals r ns).map fun p => p.2 * p.2 ^ 2).sum /
          ((signals r ns).map fun p => p.2 ^ 2).sum) := by
  unfold evaluateResourceMatchForNamespace
  by_cases h : signals r ns = []
  · simp [h]
  · simp only [if_neg h, Prod.mk.injEq]
    refine ⟨trivial, ?_⟩
    rw [combineScores_eq, List.map_map, List.map_map]
    rfl

/-- C3: when at least one signal fired but the denominator Σ(w²) is exactly
zero, the aggregation step of `evaluateResourceMatchForNamespace` returns the
unweighted arithmetic mean of the fired signal weights. -/
theorem scorer_zero_denominator_fallback_mean (scores : List ℚ)
    (_h1 : scores ≠ []) (h2 : (scores.map fun s => s ^ 2).sum = 0) :
    combineScores scores = scores.sum / (scores.length : ℚ) := by
  have hall := eq_zero_of_sum_sq_eq_zero h2
  have hmean : scores.sum = 0 := List.sum_eq_zero hall
  have hc : (scores.map fun s => s * s ^ 2).sum = 0 := by
    apply List.sum_eq_zero
    intro x hx
    obtain ⟨s, hs, rfl⟩ := List.mem_map.mp hx
    rw [hall s hs]
    ring
  simp only [combineScores, h2, lt_irrefl, if_false, hc, hmean]

/-- Witness for C3 at the concrete fired-weight list `[0]`. -/
theorem scorer_zero_denominator_fallback_mean_witness :
    combineScores [(0 : ℚ)] = List.sum [(0 : ℚ)] / (List.length [(0 : ℚ)] : ℚ) :=
  scorer_zero_denominator_fallback_mean [(0 : ℚ)] (by simp) (by simp)

/-- C5: with an empty observed-address list, the networking resolver returns
exactly the metadata resolver's match list. -/
theorem withNetworking_empty_addresses_eq (items : List Unstructured)
    (env : NetworkEnv) (ns : String) :
    FindCrossplaneResourcesForNamespaceWithNetworking items env ns [] =
      FindCrossplaneResourcesForNamespaceWithConfidence items ns := by
  simp [FindCrossplaneResourcesForNamespaceWithNetworking]

/-- C7: a resource whose only fired identity signal is the exact top-level
`kubernetes-namespace` label match scores confidence at least 0.85 (it scores
exactly 0.9). -/
theorem single_namespace_label_confidence (r : Unstructured) (ns : String)
    (h : signals r ns =
      [("Resource has 'kubernetes-namespace' label matching the namespace",
        9/10)]) :
    85/100 ≤ (evaluateResourceMatchForNamespace r ns).2 := by
  rw [evaluate_single r ns _ _ h (by norm_num)]
  norm_num

/-- Witness for C7: `cexW7` against namespace `billing` fires exactly the
`kubernetes-namespace` label signal. -/
theorem single_namespace_label_confidence_witness :
    85/100 ≤ (evaluateResourceMatchForNamespace cexW7 "billing").2 :=
  single_namespace_label_confidence cexW7 "billing" rfl

/-- C2 (amended): `resolveByName` includes a scored resource exactly when its
confidence exceeds 0.30 (dedup keeps one match per kind/name key), and returns
the result sorted in descending order of confidence; the swap-based sort is
not stable, so equal-confidence matches need not keep discovery order. -/
theorem resolveByName_threshold_descending (items : List Unstructured)
    (ns : String) :
    (∀ m ∈ FindCrossplaneResourcesForNamespaceWithConfidence items ns,
      m.Resource ∈ items ∧
      m.MatchReasons = (evaluateResourceMatchForNamespace m.Resource ns).1 ∧
      m.ConfidenceScore = (evaluateResourceMatchForNamespace m.Resource ns).2 ∧
      3/10 < m.ConfidenceScore) ∧
    (∀ r ∈ items, 3/10 < (evaluateResourceMatchForNamespace r ns).2 →
      ∃ m ∈ FindCrossplaneResourcesForNamespaceWithConfidence items ns,
        resourceKey m.Resource = resourceKey r) ∧
    List.Pairwise (fun a b => b.ConfidenceScore ≤ a.ConfidenceScore)
      (FindCrossplaneResourcesForNamespaceWithConfidence items ns) := by
  refine ⟨?_, ?_, sortMatches_pairwise _⟩
  · intro m hm
    simp only [FindCrossplaneResourcesForNamespaceWithConfidence] at hm
    have hm2 := (sortMatches_perm _).mem_iff.mp hm
    rcases metadataPass_mem_char ns items [] [] m hm2 with h | h
    · exact absurd h (List.not_mem_nil m)
    · exact h
  · intro r hr hc
    have hkey := metadataPass_high_key ns items [] [] r hr hc
    obtain ⟨m, hm, hmk⟩ := metadataPass_covered ns items [] [] (by simp) _ hkey
    exact ⟨m, (sortMatches_perm _).mem_iff.mpr hm, hmk⟩

/-- C2 counterexample: `cexR1` and `cexR2` are discovered in that order and
tie at confidence 0.6, but because the higher-confidence `cexR3` is discovered
after them, the pairwise swap sort emits `x2` before `x1`: equal-confidence
matches are not kept in discovery order. -/
theorem resolveByName_tie_order_counterexample :
    (FindCrossplaneResourcesForNamespaceWithConfidence [cexR1, cexR2, cexR3]
        "prod").map (fun m => m.Resource.name) = ["prod-db", "x2", "x1"] ∧
    (evaluateResourceMatchForNamespace cexR1 "prod").2 =
      (evaluateResourceMatchForNamespace cexR2 "prod").2 := by
  have e1 : evaluateResourceMatchForNamespace cexR1 "prod" =
      ([labelReason "team"], 6/10) :=
    evaluate_single _ _ _ _ rfl (by norm_num)
  have e2 : evaluateResourceMatchForNamespace cexR2 "prod" =
      ([labelReason "owner"], 6/10) :=
    evaluate_single _ _ _ _ rfl (by norm_num)
  have e3 : evaluateResourceMatchForNamespace cexR3 "prod" =
      ([nameReason "prod"], 8/10) :=
    evaluate_single _ _ _ _ rfl (by norm_num)
  have hpass : metadataPass "prod" [cexR1, cexR2, cexR3] [] [] =
      ([cexM1, cexM2, cexM3],
        [resourceKey cexR3, resourceKey cexR2, resourceKey cexR1]) := by
    simp only [metadataPass, e1, e2, e3]
    norm_num [cexM1, cexM2, cexM3, resourceKey, cexR1, cexR2, cexR3]
    rw [if_neg (by decide), if_neg (by decide)]
  have hsort : sortMatchesByConfidence [cexM1, cexM2, cexM3] =
      [cexM3, cexM2, cexM1] := by
    norm_num [sortMatchesByConfidence, sortLoop, selectMax, cexM1, cexM2,
      cexM3]
  constructor
  · simp only [FindCrossplaneResourcesForNamespaceWithConfidence, hpass, hsort]
    simp [cexM1, cexM2, cexM3, cexR1, cexR2, cexR3]
  · rw [e1, e2]

/-- C4: neither resolver ever returns two matches with the same `kind/name`
key — within the metadata pass and across the metadata and network phases —
given the `Get` contract that a fetched document carries the requested kind
and name. -/
theorem resolver_no_duplicate_keys (items : List Unstructured)
    (env : NetworkEnv) (ns : String) (podIPs : List String)
    (hget : GetWellFormed env) :
    ((FindCrossplaneResourcesForNamespaceWithConfidence items ns).map
      (fun m => resourceKey m.Resource)).Nodup ∧
    ((FindCrossplaneResourcesForNamespaceWithNetworking items env ns
        podIPs).map (fun m => resourceKey m.Resource)).Nodup := by
  have h1 := (metadataPass_nodup ns items [] [] (by simp) (by simp)).1
  have hconf : ((FindCrossplaneResourcesForNamespaceWithConfidence items
      ns).map (fun m => resourceKey m.Resource)).Nodup := by
    simp only [FindCrossplaneResourcesForNamespaceWithConfidence]
    exact ((sortMatches_perm _).map _).nodup_iff.mpr h1
  refine ⟨hconf, ?_⟩
  simp only [FindCrossplaneResourcesForNamespaceWithNetworking]
  by_cases hp : podIPs = []
  · rw [if_pos hp]
    exact hconf
  · rw [if_neg hp]
    have h2 := networkPass_nodup env hget podIPs
      (FindCrossplaneResourcesForNamespaceWithConfidence items ns)
      ((FindCrossplaneResourcesForNamespaceWithConfidence items ns).map
        fun m => resourceKey m.Resource)
      hconf (fun m hm => List.mem_map.mpr ⟨m, hm, rfl⟩)
    exact ((sortMatches_perm _).map _).nodup_iff.mpr h2

/-- The concrete network environment obeys the `Get` contract. -/
theorem cexEnv_wf : GetWellFormed cexEnv := by
  intro rid res h
  simp only [cexEnv] at h
  by_cases hr : rid = cexRid
  · rw [if_pos hr] at h
    injection h with h'
    subst h'
    rw [hr]
    exact ⟨rfl, rfl⟩
  · rw [if_neg hr] at h
    cases h

/-- Witness for C4 at a concrete listing, network environment, namespace and
pod-IP list. -/
theorem resolver_no_duplicate_keys_witness :
    ((FindCrossplaneResourcesForNamespaceWithConfidence [cexR1, cexR2, cexR3]
      "prod").map (fun m => resourceKey m.Resource)).Nodup ∧
    ((FindCrossplaneResourcesForNamespaceWithNetworking [cexR1, cexR2, cexR3]
      cexEnv "prod" ["10.0.3.4"]).map
      (fun m => resourceKey m.Resource)).Nodup :=
  resolver_no_duplicate_keys [cexR1, cexR2, cexR3] cexEnv "prod" ["10.0.3.4"]
    cexEnv_wf

/-- C6: every match the networking resolver returns is either a metadata
match or a network-sourced one, and every network-sourced match has
confidence exactly 0.9 and exactly one reason string citing the originating
pod IP. -/
theorem network_phase_match_shape (items : List Unstructured)
    (env : NetworkEnv) (ns : String) (podIPs : List String)
    (m : ResourceMatch)
    (hm : m ∈ FindCrossplaneResourcesForNamespaceWithNetworking items env ns
      podIPs) :
    m ∈ FindCrossplaneResourcesForNamespaceWithConfidence items ns ∨
      (m.ConfidenceScore = 9/10 ∧
        ∃ ip ∈ podIPs, m.MatchReasons = [reasonForPodIP ip]) := by
  simp only [FindCrossplaneResourcesForNamespaceWithNetworking] at hm
  by_cases hp : podIPs = []
  · rw [if_pos hp] at hm
    exact Or.inl hm
  · rw [if_neg hp] at hm
    have hm2 := (sortMatches_perm _).mem_iff.mp hm
    rcases networkPass_mem env podIPs _ _ m hm2 with h | ⟨ip, hip, h1, h2⟩
    · exact Or.inl h
    · exact Or.inr ⟨h1, ip, hip, h2⟩

/-- Witness for C6: the concrete network-sourced match `cexM6`. -/
theorem network_phase_match_shape_witness :
    cexM6 ∈ FindCrossplaneResourcesForNamespaceWithNetworking [] cexEnv
      "shop" ["10.0.3.4"] ∧
    (cexM6 ∈ FindCrossplaneResourcesForNamespaceWithConfidence [] "shop" ∨
      (cexM6.ConfidenceScore = 9/10 ∧
        ∃ ip ∈ ["10.0.3.4"], cexM6.MatchReasons = [reasonForPodIP ip])) := by
  have hmem : cexM6 ∈ FindCrossplaneResourcesForNamespaceWithNetworking []
      cexEnv "shop" ["10.0.3.4"] := List.mem_singleton.mpr rfl
  exact ⟨hmem, network_phase_match_shape [] cexEnv "shop" ["10.0.3.4"] cexM6 hmem⟩

/-- C8: `ApplyLabelsToResource` skips the write exactly when every desired
pair already holds in the current labels (in particular when desired equals
current); otherwise it performs exactly one write, whose merged map takes the
desired value on every desired key and keeps the current value on every other
key. -/
theorem applyLabels_merge_idempotent (current desired : List (String × String))
    (k : String) (hd : NodupKeys desired) (hc : NodupKeys current) :
    (ApplyLabelsToResource current desired = none ↔
      ∀ p ∈ desired, lookupL current p.1 = some p.2) ∧
    ApplyLabelsToResource current current = none ∧
    (ApplyLabelsToResource current desired = none ∨
      ApplyLabelsToResource current desired =
        some (mergedLabels current desired)) ∧
    lookupL (mergedLabels current desired) k =
      (match lookupL desired k with
       | some v => some v
       | none => lookupL current k) := by
  have hiff : ∀ des : List (String × String),
      (ApplyLabelsToResource current des = none ↔
        ∀ p ∈ des, lookupL current p.1 = some p.2) := by
    intro des
    simp only [ApplyLabelsToResource]
    constructor
    · intro h p hp
      by_cases hch : (applyLoop current des false).2 = true
      · rw [if_pos hch] at h
        cases h
      · rw [applyLoop_changed_iff] at hch
        push_neg at hch
        exact hch p hp
    · intro h
      have hch : ¬(applyLoop current des false).2 = true := by
        rw [applyLoop_changed_iff]
        push_neg
        exact h
      rw [if_neg hch]
  refine ⟨hiff desired, ?_, ?_, applyLoop_lookup desired current false k hd⟩
  · rw [hiff current]
    intro p hp
    exact lookupL_eq_some_of_mem hc (by rw [Prod.mk.eta]; exact hp)
  · by_cases hch : (applyLoop current desired false).2 = true
    · right
      simp only [ApplyLabelsToResource, if_pos hch]
    · left
      simp only [ApplyLabelsToResource, if_neg hch]

/-- Witness for C8 at one current map and one new-key desired map. -/
theorem applyLabels_merge_idempotent_witness :
    (ApplyLabelsToResource [("a", "1")] [("b", "2")] = none ↔
      ∀ p ∈ [("b", "2")], lookupL [("a", "1")] p.1 = some p.2) ∧
    ApplyLabelsToResource [("a", "1")] [("a", "1")] = none ∧
    (ApplyLabelsToResource [("a", "1")] [("b", "2")] = none ∨
      ApplyLabelsToResource [("a", "1")] [("b", "2")] =
        some (mergedLabels [("a", "1")] [("b", "2")])) ∧
    lookupL (mergedLabels [("a", "1")] [("b", "2")]) "b" =
      (match lookupL [("b", "2")] "b" with
       | some v => some v
       | none => lookupL [("a", "1")] "b") :=
  applyLabels_merge_idempotent [("a", "1")] [("b", "2")] "b" (by decide)
    (by decide)

/-- C9 counterexample: target name `billing` equals the value of the
well-known key `workload-name` inside `spec.forProvider.labels` of `cexN9`,
yet no identity signal fires: the scorer returns no reasons and confidence
0. -/
theorem scorer_wellknown_keys_counterexample :
    forProviderLabelValue cexN9 "workload-name" = some "billing" ∧
    evaluateResourceMatchForNamespace cexN9 "billing" = ([], 0) :=
  ⟨rfl, rfl⟩

/-- C9 (amended): a signal fires whenever the target name exactly equals the
value of `kubernetes-namespace`, `namespace` or `environment` in the
top-level label map or in `spec.forProvider.labels`, and whenever it equals a
top-level `workload-name` or `app` label value (through the generic
label-containment signal); exact `workload-name`/`app` matches inside
`spec.forProvider.labels` fire no signal. -/
theorem scorer_wellknown_keys_amended (r : Unstructured) (ns k : String)
    (h : ((k = "kubernetes-namespace" ∨ k = "namespace" ∨ k = "environment") ∧
          (lookupL r.labels k = some ns ∨
            forProviderLabelValue r k = some ns)) ∨
         ((k = "workload-name" ∨ k = "app") ∧ (k, ns) ∈ r.labels)) :
    signals r ns ≠ [] := by
  have memSig : ∀ x ∈ labelSignals r.labels ns, signals r ns ≠ [] := by
    intro x hx
    exact List.ne_nil_of_mem
      (List.mem_append_left _ (List.mem_append_right _ hx))
  have memSpec : ∀ x ∈ specSignals (specForProvider r) ns,
      signals r ns ≠ [] := by
    intro x hx
    exact List.ne_nil_of_mem (List.mem_append_right _ hx)
  rcases h with ⟨hk, hv⟩ | ⟨hk, hmem⟩
  · rcases hv with hl | hfp
    · rcases hk with rfl | rfl | rfl
      · refine memSig
          ("Resource has 'kubernetes-namespace' label matching the namespace",
            9/10) ?_
        simp [labelSignals, hl]
      · refine memSig
          ("Resource has 'namespace' label matching the namespace", 9/10) ?_
        simp [labelSignals, hl]
      · refine memSig
          ("Resource has 'environment' label matching the namespace", 7/10) ?_
        simp [labelSignals, hl]
    · rcases hspec : specForProvider r with _ | fp
      · simp [forProviderLabelValue, hspec] at hfp
      · simp only [forProviderLabelValue, hspec] at hfp
        rcases hlab : lookupL fp "labels" with _ | sv
        · simp [hlab] at hfp
        · cases sv with
          | str s => simp [hlab, strLookup] at hfp
          | other => simp [hlab, strLookup] at hfp
          | table m =>
            simp only [hlab] at hfp
            rcases hk with rfl | rfl | rfl
            · refine memSpec
                ("Resource spec has 'kubernetes-namespace' label in forProvider.labels",
                  9/10) ?_
              simp [specSignals, hspec, hlab, forProviderLabelsBlock, hfp]
            · refine memSpec
                ("Resource spec has 'namespace' label in forProvider.labels",
                  9/10) ?_
              simp [specSignals, hspec, hlab, forProviderLabelsBlock, hfp]
            · refine memSpec
                ("Resource spec has 'environment' label in forProvider.labels",
                  7/10) ?_
              simp [specSignals, hspec, hlab, forProviderLabelsBlock, hfp]
  · rcases hk with rfl | rfl
    · refine memSig (labelReason "workload-name", 6/10) ?_
      unfold labelSignals
      refine List.mem_append_right _ ?_
      refine List.mem_filterMap.mpr ⟨("workload-name", ns), hmem, ?_⟩
      simp [goContains_self]
    · refine memSig (labelReason "app", 6/10) ?_
      unfold labelSignals
      refine List.mem_append_right _ ?_
      refine List.mem_filterMap.mpr ⟨("app", ns), hmem, ?_⟩
      simp [goContains_self]

/-- Witness for C9 (amended): `cexW7` fires on its exact top-level
`kubernetes-namespace` label. -/
theorem scorer_wellknown_keys_amended_witness :
    signals cexW7 "billing" ≠ [] :=
  scorer_wellknown_keys_amended cexW7 "billing" "kubernetes-namespace"
    (Or.inl ⟨Or.inl rfl, Or.inl rfl⟩)

/-- C10: the confidence returned by the scorer does not depend on the
enumeration order of the top-level label map or of the `spec.forProvider`
entries: permuting either map (keys unique, as in a Go map) leaves the
confidence unchanged. -/
theorem confidence_enumeration_order_independent (r r2 : Unstructured)
    (ns : String) (hname : r2.name = r.name)
    (hlab : r2.labels.Perm r.labels) (hnodup : NodupKeys r.labels)
    (hfp : OptPermFP (specForProvider r2) (specForProvider r)) :
    (evaluateResourceMatchForNamespace r2 ns).2 =
      (evaluateResourceMatchForNamespace r ns).2 := by
  have hsig : (signals r2 ns).Perm (signals r ns) := by
    unfold signals
    refine List.Perm.append (List.Perm.append ?_ ?_) ?_
    · rw [hname]
    · unfold labelSignals
      rw [lookupL_perm hlab hnodup "kubernetes-namespace",
        lookupL_perm hlab hnodup "namespace",
        lookupL_perm hlab hnodup "environment"]
      exact List.Perm.append (List.Perm.refl _) (hlab.filterMap _)
    · rcases h1 : specForProvider r2 with _ | a
      · rcases h2 : specForProvider r with _ | b
        · exact List.Perm.refl _
        · rw [h1, h2] at hfp
          exact False.elim hfp
      · rcases h2 : specForProvider r with _ | b
        · rw [h1, h2] at hfp
          exact False.elim hfp
        · rw [h1, h2] at hfp
          obtain ⟨hperm, hnd⟩ := hfp
          simp only [specSignals]
          rw [lookupL_perm hperm hnd "labels"]
          exact List.Perm.append (List.Perm.refl _) (hperm.filterMap _)
  simp only [evaluateResourceMatchForNamespace]
  by_cases h : signals r ns = []
  · have h2 : signals r2 ns = [] := by
      rw [h] at hsig
      exact hsig.eq_nil
    simp [h, h2]
  · have h2 : signals r2 ns ≠ [] := by
      intro hc
      rw [hc] at hsig
      exact h hsig.symm.eq_nil
    rw [if_neg h, if_neg h2]
    exact combineScores_perm (hsig.map Prod.snd)

/-- Witness for C10: the two enumeration orders of the same two-label map. -/
theorem confidence_enumeration_order_independent_witness :
    (evaluateResourceMatchForNamespace cexP2 "prod").2 =
      (evaluateResourceMatchForNamespace cexP "prod").2 :=
  confidence_enumeration_order_independent cexP cexP2 "prod" rfl
    (List.Perm.swap _ _ _) (by decide) True.intro

end Styx
